import Mathlib

/-
Verification of the meadowlark relay core: a shallow embedding of the Hub
event loop (internal/server/hub.go), the Session read and write pumps
(internal/server/client.go), and the two connection-gateway variants
(internal/server/server.go and the token-based HandleConnections variant),
with theorems settling the stated properties.
-/

namespace Meadowlark

/-- Message is the routed envelope from internal/protocol/message.go:
recipient and sender are plain strings, content is an opaque byte string
(modelled as a list of byte values). -/
structure Message where
  recipient : String
  sender : String
  content : List Nat
deriving DecidableEq

/-- ClientObj is the mutable state of one Client object from
internal/server/client.go: its immutable username, the state of its `send`
channel (buffered contents, capacity fixed at creation, closed flag), and
whether its websocket connection has been closed. The Go pointer identity
of the object is the heap index (a Nat) under which the hub state stores
it, not a field here. -/
structure ClientObj where
  username : String
  sendBuf : List Message
  sendClosed : Bool
  connClosed : Bool
  capacity : Nat
deriving DecidableEq

/-- HubState is the state owned by the Hub loop: `registry` is the
`clients` map of hub.go (identity string to the pointer of the current
Client), and `heap` resolves each pointer to the Client object it
designates. -/
structure HubState where
  registry : String → Option Nat
  heap : Nat → ClientObj

/-- HubEvent is one message consumed by Hub.Run: a receive on the
`register`, `unregister` or `forward` channel. Register and unregister
carry a Client pointer; forward carries a Message pointer (modelled by
value, since the hub never mutates it). -/
inductive HubEvent where
  | register (sid : Nat)
  | unregister (sid : Nat)
  | forward (m : Message)

/-- mapInsert models `h.clients[k] = sid`. -/
def mapInsert (r : String → Option Nat) (k : String) (sid : Nat) : String → Option Nat :=
  fun s => if s = k then some sid else r s

/-- mapDelete models `delete(h.clients, k)`. -/
def mapDelete (r : String → Option Nat) (k : String) : String → Option Nat :=
  fun s => if s = k then none else r s

/-- setHeap writes one Client object back into the heap at its pointer. -/
def setHeap (h : Nat → ClientObj) (sid : Nat) (c : ClientObj) : Nat → ClientObj :=
  fun n => if n = sid then c else h n

/-- closeSend models `close(c.send)`. -/
def closeSend (c : ClientObj) : ClientObj :=
  { c with sendClosed := true }

/-- enqueue models a successful buffered-channel send `c.send <- m`. -/
def enqueue (c : ClientObj) (m : Message) : ClientObj :=
  { c with sendBuf := c.sendBuf ++ [m] }

/-- hubStep is one iteration of the select in Hub.Run (hub.go lines 22-44).

Register: `h.clients[client.username] = client` — a bare map write; no
other effect.

Unregister: `if _, ok := h.clients[client.username]; ok { delete(...);
close(cleint.send) }` — the guard tests only that some entry exists for
the username, and the close line references the undefined name `cleint`,
an obvious slip for `client`, which we model as closing the unregistering
Client's own send channel.

Forward: look up the recipient; if absent do nothing; otherwise
`select { case recipient.send <- message: default: close(recipient.send);
delete(h.clients, recipient.username) }`. A buffered-channel send is ready
when the buffer has room; if the channel is closed the send case is chosen
and panics at runtime, which we model as `none` (the loop dies); otherwise
with a full buffer the default branch evicts the recipient. -/
def hubStep (σ : HubState) : HubEvent → Option HubState
  | .register sid =>
      some { σ with registry := mapInsert σ.registry (σ.heap sid).username sid }
  | .unregister sid =>
      match σ.registry (σ.heap sid).username with
      | some _ =>
          some { registry := mapDelete σ.registry (σ.heap sid).username,
                 heap := setHeap σ.heap sid (closeSend (σ.heap sid)) }
      | none => some σ
  | .forward m =>
      match σ.registry m.recipient with
      | none => some σ
      | some sid =>
          if (σ.heap sid).sendClosed then
            none
          else if (σ.heap sid).sendBuf.length < (σ.heap sid).capacity then
            some { σ with heap := setHeap σ.heap sid (enqueue (σ.heap sid) m) }
          else
            some { σ with
                   registry := mapDelete σ.registry (σ.heap sid).username,
                   heap := setHeap σ.heap sid (closeSend (σ.heap sid)) }

/-- hubRun processes a list of events in order, propagating a runtime
panic as `none`. -/
def hubRun (σ : HubState) : List HubEvent → Option HubState
  | [] => some σ
  | e :: rest =>
      match hubStep σ e with
      | none => none
      | some σ' => hubRun σ' rest

/-- Reachable marks the hub states obtainable from the initial empty
registry (NewHub in hub.go) by any sequence of register, unregister and
forward events. The heap of pre-existing Client objects is arbitrary at
start; hub steps are the only mutations tracked. -/
inductive Reachable : HubState → Prop where
  | init (heap : Nat → ClientObj) :
      Reachable { registry := fun _ => none, heap := heap }
  | step {σ σ' : HubState} {e : HubEvent} :
      Reachable σ → hubStep σ e = some σ' → Reachable σ'

/-- Frame is one inbound websocket text frame as seen by the read pump:
either its bytes unmarshal to a Message (good) or json.Unmarshal fails
(bad). -/
inductive Frame where
  | good (m : Message)
  | bad

/-- decodeFrame is the outcome of `json.Unmarshal(messageBytes, &msg)` in
Client.readPump. -/
def decodeFrame : Frame → Option Message
  | .good m => some m
  | .bad => none

/-- ReadResult is one outcome of `c.conn.ReadMessage()`: a delivered frame,
or a transport-level error or close. -/
inductive ReadResult where
  | frame (f : Frame)
  | terr

/-- stampSender models `msg.Sender = c.username` in Client.readPump: the
decoded envelope has its sender field overwritten with the authenticated
username of the Session. -/
def stampSender (username : String) (m : Message) : Message :=
  { m with sender := username }

/-- readPumpEvents lists the hub events emitted by Client.readPump
(client.go lines 20-40) for a given sequence of transport read outcomes:
a good frame is decoded, stamped with the Session username and forwarded;
a bad frame is skipped and the loop continues; a transport error breaks
the loop, whose deferred epilogue emits Unregister(self). An exhausted
list means the pump is still blocked reading, so no epilogue has run. -/
def readPumpEvents (sid : Nat) (username : String) : List ReadResult → List HubEvent
  | [] => []
  | .frame f :: rest =>
      match decodeFrame f with
      | some m => .forward (stampSender username m) :: readPumpEvents sid username rest
      | none => readPumpEvents sid username rest
  | .terr :: _ => [.unregister sid]

/-- readPumpClosesConn tells whether the deferred `c.conn.Close()` of the
read pump has run for a given sequence of read outcomes: it runs exactly
when the loop has exited, which happens only on a transport error. -/
def readPumpClosesConn : List ReadResult → Bool
  | [] => false
  | .frame _ :: rest => readPumpClosesConn rest
  | .terr :: _ => true

/-- WritePumpExit records the observable effects of Client.writePump
reaching the closed-channel branch: the envelopes it drained and wrote
out, the close frame it sends, and the connection close performed by its
deferred epilogue. -/
structure WritePumpExit where
  written : List Message
  closeFrameSent : Bool
  connClosed : Bool
deriving DecidableEq

/-- writePumpDrain is the terminal behaviour of Client.writePump
(client.go lines 42-59): while the send channel is open the pump stays
blocked (`none`); once the channel is closed, receives drain the buffered
envelopes (each marshalled and written to the transport), then the
`!ok` branch writes a CloseMessage and returns, and the deferred
`c.conn.Close()` closes the transport. -/
def writePumpDrain (c : ClientObj) : Option WritePumpExit :=
  if c.sendClosed then
    some { written := c.sendBuf, closeFrameSent := true, connClosed := true }
  else
    none

/-- handleConnectionsParam is Server.HandleConnections from
internal/server/server.go (lines 80-100): the Session identity is taken
from the `username` URL query parameter; the only checks before
constructing and registering the Client are that the parameter is
nonempty and that the websocket upgrade succeeds. The returned value is
the identity of the constructed Session, `none` when the connection is
rejected and no Session is created. No credential validator is ever
consulted on this path. -/
def handleConnectionsParam (username : String) (upgradeOk : Bool) : Option String :=
  if username = "" then none
  else if upgradeOk then some username
  else none

/-- tokenFromHeader models the Authorization-header fallback of the
token-based HandleConnections variant: split the header on spaces and
accept `Bearer <token>`. -/
def tokenFromHeader (authHeader : String) : String :=
  if authHeader = "" then ""
  else
    match authHeader.splitOn " " with
    | [p0, p1] => if p0 = "Bearer" then p1 else ""
    | _ => ""

/-- extractToken models the token extraction of the token-based
HandleConnections variant: the `token` query parameter, or failing that
the bearer token of the Authorization header. -/
def extractToken (queryToken authHeader : String) : String :=
  if queryToken = "" then tokenFromHeader authHeader else queryToken

/-- handleConnectionsToken is the token-validating HandleConnections
variant (the unnamed server source, lines 177-214): extract a token,
reject when it is empty, call auth.ValidateToken and reject on failure,
then upgrade and construct the Client with the username returned by the
validator. `validate` stands for auth.ValidateToken; the returned value
is the identity of the constructed Session, `none` when the connection is
rejected. -/
def handleConnectionsToken (validate : String → Option String)
    (queryToken authHeader : String) (upgradeOk : Bool) : Option String :=
  let token := extractToken queryToken authHeader
  if token = "" then none
  else
    match validate token with
    | none => none
    | some username =>
        if upgradeOk then some username else none

/-- RegistryIdent is the registry invariant of the data model: every
value stored in the clients map has a username equal to its key. -/
def RegistryIdent (σ : HubState) : Prop :=
  ∀ k sid, σ.registry k = some sid → (σ.heap sid).username = k

/-- mkClient is the Client constructed by HandleConnections: fresh open
send channel of capacity 256, open connection, given username. -/
def mkClient (u : String) : ClientObj :=
  { username := u, sendBuf := [], sendClosed := false, connClosed := false, capacity := 256 }

/-- exHeap is a small concrete heap of Client objects used to evaluate
the theorems on concrete states: two distinct Client objects for alice
(pointers 1 and 2), one for bob (pointer 3). -/
def exHeap : Nat → ClientObj :=
  fun n =>
    if n = 1 then mkClient "alice"
    else if n = 2 then mkClient "alice"
    else mkClient "bob"

/-- exInit is the hub state right after NewHub: empty clients map. -/
def exInit : HubState :=
  { registry := fun _ => none, heap := exHeap }

/-- exAlice1 is exInit after Register of the first alice Client. -/
def exAlice1 : HubState :=
  { exInit with registry := mapInsert exInit.registry "alice" 1 }

/-- exFullHeap is a heap whose bob Client (pointer 3) has a send buffer
filled to its capacity of 256. -/
def exFullHeap : Nat → ClientObj :=
  fun n =>
    if n = 3 then
      { username := "bob",
        sendBuf := List.replicate 256 { recipient := "bob", sender := "alice", content := [104, 105] },
        sendClosed := false, connClosed := false, capacity := 256 }
    else exHeap n

/-- exInitFull is the empty-registry state over exFullHeap. -/
def exInitFull : HubState :=
  { registry := fun _ => none, heap := exFullHeap }

/-- exFull is a hub state in which bob (pointer 3) is registered with a
send buffer at capacity; it is exInitFull after Register of pointer 3. -/
def exFull : HubState :=
  { registry := fun s => if s = "bob" then some 3 else none, heap := exFullHeap }

/-- exMsg is a concrete envelope addressed to bob with a claimed sender
mallory. -/
def exMsg : Message :=
  { recipient := "bob", sender := "mallory", content := [104, 105] }

/-- exMsgAlice is a concrete envelope addressed to alice. -/
def exMsgAlice : Message :=
  { recipient := "alice", sender := "mallory", content := [104, 105] }

/-- exAlice2 is exInit after Register of the second alice Client
(pointer 2). -/
def exAlice2 : HubState :=
  { exInit with registry := mapInsert exInit.registry "alice" 2 }

/-- exBoth is a hub state with alice registered at pointer 1 and bob at
pointer 3; it is exAlice1 after Register of pointer 3. -/
def exBoth : HubState :=
  { exAlice1 with registry := mapInsert exAlice1.registry "bob" 3 }

/-- exMsg2 is a second concrete envelope addressed to bob. -/
def exMsg2 : Message :=
  { recipient := "bob", sender := "alice", content := [119] }

/-- deliveredTo lists, in hub-arrival order, the envelopes of the
Forward events addressed to identity r. -/
def deliveredTo (r : String) : List HubEvent → List Message
  | [] => []
  | .forward m :: rest =>
      if m.recipient = r then m :: deliveredTo r rest else deliveredTo r rest
  | .register _ :: rest => deliveredTo r rest
  | .unregister _ :: rest => deliveredTo r rest

/-- StaysRegistered states that the Session at pointer sid is the
current registry entry for identity r before and after every step of the
event list: the recipient is neither replaced nor evicted nor
unregistered while the events run, and no step panics. -/
def StaysRegistered (r : String) (sid : Nat) : HubState → List HubEvent → Prop
  | σ, [] => σ.registry r = some sid
  | σ, e :: rest =>
      σ.registry r = some sid ∧
      ∃ σ', hubStep σ e = some σ' ∧ StaysRegistered r sid σ' rest

/-- GatewayValidatesClaim states, for the query-parameter
HandleConnections of server.go and a given credential validator, that
every constructed Session carries an identity the validator yielded for
some credential: the C6 property instantiated to that handler. -/
def GatewayValidatesClaim (validate : String → Option String) : Prop :=
  ∀ username upgradeOk id,
    handleConnectionsParam username upgradeOk = some id →
    ∃ t, validate t = some id

/-- exValidate is a concrete credential validator accepting exactly the
token tok1 for identity alice. -/
def exValidate : String → Option String :=
  fun t => if t = "tok1" then some "alice" else none

theorem closeSend_username (c : ClientObj) : (closeSend c).username = c.username := rfl

theorem enqueue_username (c : ClientObj) (m : Message) :
    (enqueue c m).username = c.username := rfl

/-- registryIdent_step shows that one hub loop iteration preserves the
registry invariant. -/
theorem registryIdent_step {σ σ' : HubState} {e : HubEvent}
    (hinv : RegistryIdent σ) (hstep : hubStep σ e = some σ') : RegistryIdent σ' := by
  cases e with
  | register sid =>
      simp only [hubStep, Option.some.injEq] at hstep
      subst hstep
      intro k s hk
      simp only [mapInsert] at hk
      split at hk
      · next hku =>
          obtain rfl : sid = s := Option.some.inj hk
          exact hku.symm
      · exact hinv _ _ hk
  | unregister sid =>
      simp only [hubStep] at hstep
      split at hstep
      · simp only [Option.some.injEq] at hstep
        subst hstep
        intro k s hk
        simp only [mapDelete] at hk
        split at hk
        · exact absurd hk (by simp)
        · have h2 := hinv _ _ hk
          simp only [setHeap]
          split
          · next hs => subst hs; simpa [closeSend] using h2
          · exact h2
      · simp only [Option.some.injEq] at hstep
        subst hstep
        exact hinv
  | forward m =>
      simp only [hubStep] at hstep
      split at hstep
      · simp only [Option.some.injEq] at hstep
        subst hstep
        exact hinv
      · next sid hreg =>
          split at hstep
          · exact absurd hstep (by simp)
          · split at hstep
            · simp only [Option.some.injEq] at hstep
              subst hstep
              intro k s hk
              have h2 := hinv _ _ hk
              simp only [setHeap]
              split
              · next hs => subst hs; simpa [enqueue] using h2
              · exact h2
            · simp only [Option.some.injEq] at hstep
              subst hstep
              intro k s hk
              simp only [mapDelete] at hk
              split at hk
              · exact absurd hk (by simp)
              · have h2 := hinv _ _ hk
                simp only [setHeap]
                split
                · next hs => subst hs; simpa [closeSend] using h2
                · exact h2

/-- registryIdent_of_reachable shows the registry invariant holds in
every reachable hub state. -/
theorem registryIdent_of_reachable {σ : HubState} (h : Reachable σ) : RegistryIdent σ := by
  induction h with
  | init heap => intro k s hk; exact absurd hk (by simp)
  | step _ hstep ih => exact registryIdent_step ih hstep

/-- C7: in every hub state reachable by any sequence of Register,
Unregister and Forward events from the initial empty registry, every
registry value has a username equal to its key, and no identity maps to
more than one Session (the registry is functional in its key). -/
theorem hub_registry_invariant (σ : HubState) (h : Reachable σ) :
    (∀ k sid, σ.registry k = some sid → (σ.heap sid).username = k) ∧
    (∀ k sid1 sid2, σ.registry k = some sid1 → σ.registry k = some sid2 → sid1 = sid2) :=
  ⟨registryIdent_of_reachable h,
   fun _ _ _ h1 h2 => by rw [h1] at h2; exact Option.some.inj h2⟩

theorem hub_registry_invariant_witness : (exAlice1.heap 1).username = "alice" :=
  (hub_registry_invariant exAlice1
    (@Reachable.step exInit exAlice1 (HubEvent.register 1) (Reachable.init exHeap) rfl)).1
    "alice" 1 (by decide)

/-- C5: a Forward whose recipient has no current entry in the clients map
leaves the hub state exactly unchanged: no registry mutation, no queue
touched, no error. -/
theorem forward_unknown_recipient_noop (σ : HubState) (m : Message)
    (h : σ.registry m.recipient = none) :
    hubStep σ (.forward m) = some σ := by
  simp [hubStep, h]

theorem forward_unknown_recipient_noop_witness :
    hubStep exInit (.forward exMsg) = some exInit :=
  forward_unknown_recipient_noop exInit exMsg (by decide)

/-- hubStep_forward_room is the happy-path Forward lemma: a registered
recipient with an open send channel that has room gets exactly the
forwarded envelope appended to its buffer, with no other change. -/
theorem hubStep_forward_room (σ : HubState) (m : Message) (sid : Nat)
    (hreg : σ.registry m.recipient = some sid)
    (hopen : (σ.heap sid).sendClosed = false)
    (hroom : (σ.heap sid).sendBuf.length < (σ.heap sid).capacity) :
    ∃ σ', hubStep σ (.forward m) = some σ' ∧
      σ'.registry = σ.registry ∧
      (σ'.heap sid).sendBuf = (σ.heap sid).sendBuf ++ [m] ∧
      (σ'.heap sid).sendClosed = false ∧
      ∀ n, n ≠ sid → σ'.heap n = σ.heap n := by
  refine ⟨{ σ with heap := setHeap σ.heap sid (enqueue (σ.heap sid) m) },
    ?_, rfl, ?_, ?_, ?_⟩
  · simp [hubStep, hreg, hopen, hroom]
  · simp [setHeap, enqueue]
  · simp [setHeap, enqueue, hopen]
  · intro n hn
    simp [setHeap, hn]

/-- C10: a Forward whose recipient is registered with an open send
channel that has room enqueues exactly that envelope at the tail of the
recipient queue, leaves the registry untouched, does not evict the
recipient, and leaves every other Client object unchanged. -/
theorem forward_room_enqueues (σ : HubState) (m : Message) (sid : Nat)
    (hreg : σ.registry m.recipient = some sid)
    (hopen : (σ.heap sid).sendClosed = false)
    (hroom : (σ.heap sid).sendBuf.length < (σ.heap sid).capacity) :
    ∃ σ', hubStep σ (.forward m) = some σ' ∧
      σ'.registry = σ.registry ∧
      (σ'.heap sid).sendBuf = (σ.heap sid).sendBuf ++ [m] ∧
      (σ'.heap sid).sendClosed = false ∧
      ∀ n, n ≠ sid → σ'.heap n = σ.heap n :=
  hubStep_forward_room σ m sid hreg hopen hroom

theorem forward_room_enqueues_witness :
    ∃ σ', hubStep exAlice1 (.forward exMsgAlice) = some σ' ∧
      σ'.registry = exAlice1.registry ∧
      (σ'.heap 1).sendBuf = (exAlice1.heap 1).sendBuf ++ [exMsgAlice] ∧
      (σ'.heap 1).sendClosed = false ∧
      ∀ n, n ≠ 1 → σ'.heap n = exAlice1.heap n :=
  forward_room_enqueues exAlice1 exMsgAlice 1 (by decide) (by decide) (by decide)

/-- C4: a Forward whose recipient is registered with an open send channel
already filled to capacity completes in one hub step (no blocking) that
closes the recipient send channel and removes the recipient registry
entry, leaving other entries alone; the recipient write pump, unblocked
by the closed channel, then drains the buffer, emits a close frame and
closes the transport. -/
theorem forward_full_queue_evicts (σ : HubState) (m : Message) (sid : Nat)
    (hreach : Reachable σ)
    (hreg : σ.registry m.recipient = some sid)
    (hopen : (σ.heap sid).sendClosed = false)
    (hfull : (σ.heap sid).capacity ≤ (σ.heap sid).sendBuf.length) :
    ∃ σ', hubStep σ (.forward m) = some σ' ∧
      (σ'.heap sid).sendClosed = true ∧
      σ'.registry m.recipient = none ∧
      (∀ k, k ≠ m.recipient → σ'.registry k = σ.registry k) ∧
      writePumpDrain (σ'.heap sid) =
        some { written := (σ.heap sid).sendBuf, closeFrameSent := true, connClosed := true } := by
  have huser : (σ.heap sid).username = m.recipient :=
    registryIdent_of_reachable hreach _ _ hreg
  refine ⟨{ σ with
      registry := mapDelete σ.registry (σ.heap sid).username,
      heap := setHeap σ.heap sid (closeSend (σ.heap sid)) }, ?_, ?_, ?_, ?_, ?_⟩
  · simp [hubStep, hreg, hopen, Nat.not_lt.mpr hfull]
  · simp [setHeap, closeSend]
  · simp [mapDelete, huser]
  · intro k hk
    simp [mapDelete, huser, hk]
  · simp [setHeap, closeSend, writePumpDrain]

set_option maxRecDepth 4000 in
theorem forward_full_queue_evicts_witness :
    ∃ σ', hubStep exFull (.forward exMsg) = some σ' ∧
      (σ'.heap 3).sendClosed = true ∧
      σ'.registry exMsg.recipient = none ∧
      (∀ k, k ≠ exMsg.recipient → σ'.registry k = exFull.registry k) ∧
      writePumpDrain (σ'.heap 3) =
        some { written := (exFull.heap 3).sendBuf, closeFrameSent := true, connClosed := true } :=
  forward_full_queue_evicts exFull exMsg 3
    (@Reachable.step exInitFull exFull (HubEvent.register 3) (Reachable.init exFullHeap) rfl)
    (by decide) (by decide) (by decide)

/-- C1: when the read pump of the Session registered for identity A
decodes a frame, the event it emits to the hub carries the envelope with
the sender field overwritten by the authenticated identity of A (any
claimed sender in the frame is discarded) and the content bytes
unchanged; processing that event in a state where the recipient B is
registered with room in its queue appends exactly that envelope to the B
outbound queue. -/
theorem readPump_stamps_sender (σ : HubState) (asid bsid : Nat) (m : Message)
    (rs : List ReadResult)
    (_ha : σ.registry (σ.heap asid).username = some asid)
    (hb : σ.registry m.recipient = some bsid)
    (hopen : (σ.heap bsid).sendClosed = false)
    (hroom : (σ.heap bsid).sendBuf.length < (σ.heap bsid).capacity) :
    readPumpEvents asid (σ.heap asid).username (.frame (.good m) :: rs) =
      .forward (stampSender (σ.heap asid).username m) ::
        readPumpEvents asid (σ.heap asid).username rs ∧
    (stampSender (σ.heap asid).username m).sender = (σ.heap asid).username ∧
    (stampSender (σ.heap asid).username m).content = m.content ∧
    ∃ σ', hubStep σ (.forward (stampSender (σ.heap asid).username m)) = some σ' ∧
      (σ'.heap bsid).sendBuf =
        (σ.heap bsid).sendBuf ++ [stampSender (σ.heap asid).username m] := by
  refine ⟨rfl, rfl, rfl, ?_⟩
  obtain ⟨σ', h1, _, h3, _⟩ := hubStep_forward_room σ (stampSender (σ.heap asid).username m) bsid hb hopen hroom
  exact ⟨σ', h1, h3⟩

theorem readPump_stamps_sender_witness :
    readPumpEvents 1 (exBoth.heap 1).username (.frame (.good exMsg) :: []) =
      .forward (stampSender (exBoth.heap 1).username exMsg) ::
        readPumpEvents 1 (exBoth.heap 1).username [] ∧
    (stampSender (exBoth.heap 1).username exMsg).sender = (exBoth.heap 1).username ∧
    (stampSender (exBoth.heap 1).username exMsg).content = exMsg.content ∧
    ∃ σ', hubStep exBoth (.forward (stampSender (exBoth.heap 1).username exMsg)) = some σ' ∧
      (σ'.heap 3).sendBuf =
        (exBoth.heap 3).sendBuf ++ [stampSender (exBoth.heap 1).username exMsg] :=
  readPump_stamps_sender exBoth 1 3 exMsg [] (by decide) (by decide) (by decide) (by decide)

/-- C9: a frame whose bytes fail to unmarshal is dropped by the read
pump: no hub event is emitted for it, in particular no Forward and no
Unregister, the loop goes on to the remaining reads unchanged, and the
connection is not closed on its account. -/
theorem malformed_frame_dropped (sid : Nat) (u : String) (rest : List ReadResult) :
    readPumpEvents sid u (.frame .bad :: rest) = readPumpEvents sid u rest ∧
    readPumpClosesConn (.frame .bad :: rest) = readPumpClosesConn rest ∧
    readPumpEvents sid u [.frame .bad] = [] :=
  ⟨rfl, rfl, rfl⟩

/-- C2 counterexample: in the concrete state exAlice1, where the alice
Client at pointer 1 is current, registering a second alice Client
(pointer 2) installs the new Client but leaves the displaced send channel
open, contradicting the claim that the displaced queue is closed. -/
theorem register_displaced_not_closed_cex :
    ∃ σ', hubStep exAlice1 (.register 2) = some σ' ∧
      σ'.registry "alice" = some 2 ∧
      (σ'.heap 1).sendClosed = false :=
  ⟨_, rfl, by decide, by decide⟩

/-- C2 amended: registering a Session whose identity already has a
current Session installs the new Session as the unique entry for that
identity, but does not close the displaced Session queue — the displaced
Client object is left entirely unchanged. -/
theorem register_replaces_without_close (σ : HubState) (newSid oldSid : Nat)
    (_hold : σ.registry (σ.heap newSid).username = some oldSid) :
    ∃ σ', hubStep σ (.register newSid) = some σ' ∧
      σ'.registry (σ.heap newSid).username = some newSid ∧
      (∀ sid2, σ'.registry (σ.heap newSid).username = some sid2 → sid2 = newSid) ∧
      σ'.heap oldSid = σ.heap oldSid := by
  refine ⟨{ σ with registry := mapInsert σ.registry (σ.heap newSid).username newSid },
    rfl, ?_, ?_, rfl⟩
  · simp [mapInsert]
  · intro sid2 h2
    exact (show newSid = sid2 by simpa [mapInsert] using h2).symm

theorem register_replaces_without_close_witness :
    ∃ σ', hubStep exAlice1 (.register 2) = some σ' ∧
      σ'.registry (exAlice1.heap 2).username = some 2 ∧
      (∀ sid2, σ'.registry (exAlice1.heap 2).username = some sid2 → sid2 = 2) ∧
      σ'.heap 1 = exAlice1.heap 1 :=
  register_replaces_without_close exAlice1 2 1 (by decide)

/-- C3 counterexample: in the concrete state exAlice2, where the newer
alice Client at pointer 2 is current, an Unregister referencing the stale
alice Client at pointer 1 removes the entry of the newer Client from the
registry, contradicting the claim that a stale unregister leaves the
registry unchanged. -/
theorem stale_unregister_evicts_cex :
    exAlice2.registry "alice" = some 2 ∧
    ∃ σ', hubStep exAlice2 (.unregister 1) = some σ' ∧
      σ'.registry "alice" = none :=
  ⟨by decide, _, rfl, by decide⟩

/-- C3 amended: an Unregister removes the registry entry for the
identity of the referenced Session whenever any Session is currently
registered under that identity — the match is by identity string, not by
Session object, so a stale unregister does evict a newer Session — and
closes the send channel of the referenced Session itself, leaving
entries for other identities untouched. -/
theorem unregister_matches_by_username (σ : HubState) (sid other : Nat)
    (h : σ.registry (σ.heap sid).username = some other) :
    ∃ σ', hubStep σ (.unregister sid) = some σ' ∧
      σ'.registry (σ.heap sid).username = none ∧
      (σ'.heap sid).sendClosed = true ∧
      ∀ k, k ≠ (σ.heap sid).username → σ'.registry k = σ.registry k := by
  refine ⟨{ σ with
      registry := mapDelete σ.registry (σ.heap sid).username,
      heap := setHeap σ.heap sid (closeSend (σ.heap sid)) }, ?_, ?_, ?_, ?_⟩
  · simp [hubStep, h]
  · simp [mapDelete]
  · simp [setHeap, closeSend]
  · intro k hk
    simp [mapDelete, hk]

theorem unregister_matches_by_username_witness :
    ∃ σ', hubStep exAlice2 (.unregister 1) = some σ' ∧
      σ'.registry (exAlice2.heap 1).username = none ∧
      (σ'.heap 1).sendClosed = true ∧
      ∀ k, k ≠ (exAlice2.heap 1).username → σ'.registry k = exAlice2.registry k :=
  unregister_matches_by_username exAlice2 1 2 (by decide)

/-- C6 counterexample: the HandleConnections of server.go constructs a
Session for any nonempty username query parameter; with a validator that
rejects every credential, a connection claiming username mallory still
yields a Session with that client-supplied identity, so the claim that a
Session is only ever constructed after successful credential validation
fails on this handler. -/
theorem param_gateway_unvalidated_cex :
    handleConnectionsParam "mallory" true = some "mallory" ∧
    ¬ GatewayValidatesClaim (fun _ => none) := by
  refine ⟨rfl, fun h => ?_⟩
  rcases h "mallory" true "mallory" rfl with ⟨t, ht⟩
  simp at ht

/-- C6 amended: the token-validating HandleConnections variant
constructs a Session only when some nonempty extracted credential passes
the validator, and the Session identity is exactly the identity the
validator returned for that credential; the HandleConnections of
server.go instead takes the identity from the unauthenticated username
query parameter without consulting any validator. -/
theorem token_gateway_identity_validated (validate : String → Option String)
    (queryToken authHeader : String) (upgradeOk : Bool) (id : String)
    (h : handleConnectionsToken validate queryToken authHeader upgradeOk = some id) :
    ∃ t, t ≠ "" ∧ validate t = some id := by
  simp only [handleConnectionsToken] at h
  split at h
  · exact absurd h (by simp)
  · next hne =>
      split at h
      · exact absurd h (by simp)
      · next u hv =>
          split at h
          · exact ⟨extractToken queryToken authHeader, hne, by rw [hv, Option.some.inj h]⟩
          · exact absurd h (by simp)

theorem token_gateway_identity_validated_witness :
    ∃ t, t ≠ "" ∧ exValidate t = some "alice" :=
  token_gateway_identity_validated exValidate "tok1" "" true "alice" (by decide)

/-- deliveredTo_cons splits off the contribution of the first event. -/
theorem deliveredTo_cons (r : String) (e : HubEvent) (rest : List HubEvent) :
    deliveredTo r (e :: rest) = deliveredTo r [e] ++ deliveredTo r rest := by
  cases e with
  | register sid => simp [deliveredTo]
  | unregister sid => simp [deliveredTo]
  | forward m =>
      by_cases h : m.recipient = r <;> simp [deliveredTo, h]

/-- buffer_extends_step shows one hub step appends to the queue of a
recipient that stays registered exactly the envelopes the event forwards
to it: nothing for Register and Unregister events and for Forwards to
other identities, the forwarded envelope itself for a Forward to it. -/
theorem buffer_extends_step (σ σ' : HubState) (e : HubEvent) (r : String) (sid : Nat)
    (hinv : RegistryIdent σ)
    (hreg : σ.registry r = some sid)
    (hstep : hubStep σ e = some σ')
    (hreg2 : σ'.registry r = some sid) :
    (σ'.heap sid).sendBuf = (σ.heap sid).sendBuf ++ deliveredTo r [e] := by
  cases e with
  | register sid2 =>
      simp only [hubStep, Option.some.injEq] at hstep
      subst hstep
      simp [deliveredTo]
  | unregister sid2 =>
      simp only [hubStep] at hstep
      split at hstep
      · simp only [Option.some.injEq] at hstep
        subst hstep
        simp only [deliveredTo, List.append_nil, setHeap]
        split
        · next hs => subst hs; simp [closeSend]
        · rfl
      · simp only [Option.some.injEq] at hstep
        subst hstep
        simp [deliveredTo]
  | forward m =>
      simp only [hubStep] at hstep
      split at hstep
      · next hnone =>
          simp only [Option.some.injEq] at hstep
          subst hstep
          have hne : m.recipient ≠ r := fun hmr => by rw [hmr, hreg] at hnone; cases hnone
          simp [deliveredTo, hne]
      · next sid2 hsome =>
          split at hstep
          · exact absurd hstep (by simp)
          · next hopen =>
              split at hstep
              · simp only [Option.some.injEq] at hstep
                subst hstep
                by_cases hmr : m.recipient = r
                · have : sid2 = sid := by
                    rw [hmr, hreg] at hsome
                    exact (Option.some.inj hsome).symm
                  subst this
                  simp [deliveredTo, hmr, setHeap, enqueue]
                · have hsid : sid ≠ sid2 := by
                    intro hs
                    apply hmr
                    rw [← hinv _ _ hsome, ← hs, hinv _ _ hreg]
                  simp [deliveredTo, hmr, setHeap, hsid]
              · simp only [Option.some.injEq] at hstep
                subst hstep
                by_cases hmr : m.recipient = r
                · exfalso
                  have huser : (σ.heap sid2).username = m.recipient := hinv _ _ hsome
                  have : mapDelete σ.registry (σ.heap sid2).username r = some sid := hreg2
                  rw [huser, hmr] at this
                  simp [mapDelete] at this
                · simp only [deliveredTo, if_neg hmr, List.append_nil, setHeap]
                  split
                  · next hs => subst hs; simp [closeSend]
                  · rfl

/-- forward_fifo_aux is the list-level FIFO lemma under the registry
invariant. -/
theorem forward_fifo_aux (events : List HubEvent) (σ : HubState) (r : String) (sid : Nat)
    (hinv : RegistryIdent σ)
    (hstay : StaysRegistered r sid σ events) :
    ∃ σ2, hubRun σ events = some σ2 ∧
      (σ2.heap sid).sendBuf = (σ.heap sid).sendBuf ++ deliveredTo r events := by
  induction events generalizing σ with
  | nil => exact ⟨σ, rfl, by simp [deliveredTo]⟩
  | cons e rest ih =>
      obtain ⟨hreg, σ', hstep, hstay'⟩ := hstay
      have hreg2 : σ'.registry r = some sid := by
        cases rest with
        | nil => exact hstay'
        | cons f fs => exact hstay'.1
      have hbuf := buffer_extends_step σ σ' e r sid hinv hreg hstep hreg2
      obtain ⟨σ2, hrun, hbuf2⟩ := ih σ' (registryIdent_step hinv hstep) hstay'
      refine ⟨σ2, ?_, ?_⟩
      · simp [hubRun, hstep, hrun]
      · rw [hbuf2, hbuf, deliveredTo_cons r e rest, List.append_assoc]

/-- C8: for a fixed recipient identity r whose Session stays registered
while a sequence of hub events is processed by the single hub loop, the
recipient queue ends as its initial content followed by exactly the
envelopes of the Forward events addressed to r, in hub-arrival order; no
ordering is claimed once the recipient is replaced, evicted or
unregistered, which the StaysRegistered hypothesis excludes. -/
theorem forward_fifo_order (σ : HubState) (events : List HubEvent) (r : String) (sid : Nat)
    (hreach : Reachable σ)
    (hstay : StaysRegistered r sid σ events) :
    ∃ σ2, hubRun σ events = some σ2 ∧
      (σ2.heap sid).sendBuf = (σ.heap sid).sendBuf ++ deliveredTo r events :=
  forward_fifo_aux events σ r sid (registryIdent_of_reachable hreach) hstay

theorem forward_fifo_order_witness :
    ∃ σ2, hubRun exBoth [.forward exMsg, .forward exMsg2] = some σ2 ∧
      (σ2.heap 3).sendBuf =
        (exBoth.heap 3).sendBuf ++ deliveredTo "bob" [.forward exMsg, .forward exMsg2] :=
  forward_fifo_order exBoth [.forward exMsg, .forward exMsg2] "bob" 3
    (@Reachable.step exAlice1 exBoth (HubEvent.register 3)
      (@Reachable.step exInit exAlice1 (HubEvent.register 1) (Reachable.init exHeap) rfl)
      rfl)
    (by
      refine ⟨by decide, _, rfl, by decide, _, rfl, ?_⟩
      show _ = some 3
      decide)

end Meadowlark
